import Mathlib

/-!
Verification of the resumable-streaming chat server router.

JavaScript strings are modelled as lists of characters, the completion
ReadableStream as the finite list of words it delivers together with a
flag saying whether it then errors instead of closing, and each async
function of the router as a pure Lean function over these data.
-/

namespace ResumableStreaming

/-- JavaScript strings modelled as lists of characters. -/
abbrev Str := List Char

/-- Lifecycle status of a message, after the Zod enum of the router. -/
inductive Status where
  | streaming
  | done
  | error
  deriving DecidableEq

/-- Role of a message, after the Zod enum of the router. -/
inductive Role where
  | user
  | assistant
  deriving DecidableEq

/-- Message record validated by messageSchema and stored in the array. -/
structure Message where
  id : Str
  content : Str
  role : Role
  createdAt : Nat
  status : Status
  deriving DecidableEq

/-- Structured chunk yielded during streaming. -/
structure StreamChunk where
  messageId : Str
  status : Status
  text : Str
  deriving DecidableEq

/-- A chunk source as one consumer sees it: the words the ReadableStream
delivers, and whether the stream then errors instead of closing (the
reference completion never errors; a production source may fail after
delivering some words). -/
structure ChunkSource where
  chunks : List Str
  fails : Bool
  deriving DecidableEq

/-- ReadableStream tee: both branches observe the identical word
sequence, each drainable independently of the other. -/
def tee (src : ChunkSource) : ChunkSource × ChunkSource := (src, src)

/-- One append step of consumeStream, which evaluates
content plus (a separator when content is truthy) plus word. -/
def appendWord (content w : Str) : Str :=
  content ++ (if content = [] then [] else [' ']) ++ w

/-- Background persister consumeStream: folds its tee branch into the
message content, then sets status done on normal completion of the
branch and status error when the branch fails. -/
def consumeStream (src : ChunkSource) (m : Message) : Message :=
  let c := src.chunks.foldl appendWord m.content
  if src.fails then { m with content := c, status := Status.error }
  else { m with content := c, status := Status.done }

/-- How the live relay generator terminates: its loop ended and the
generator returned, or a fault was thrown out of it. -/
inductive StreamEnd where
  | closed
  | thrown
  deriving DecidableEq

/-- Loop of convertReadableStreamToAsyncIterable over the words its tee
branch delivers; a failing read rethrows out of the generator, because
the try block around the loop has no catch clause. -/
def convertGo (messageId : Str) : List Str → Bool → List StreamChunk × StreamEnd
  | [], false => ([StreamChunk.mk messageId Status.done []], StreamEnd.closed)
  | [], true => ([], StreamEnd.thrown)
  | w :: ws, f =>
    let rest := convertGo messageId ws f
    (StreamChunk.mk messageId Status.streaming w :: rest.1, rest.2)

/-- Live relay convertReadableStreamToAsyncIterable: one streaming chunk
per word, then one terminal done chunk when the branch closes normally. -/
def convertReadableStreamToAsyncIterable (src : ChunkSource) (messageId : Str) :
    List StreamChunk × StreamEnd :=
  convertGo messageId src.chunks src.fails

/-- Splitting rule of the poller, content.split(space).filter(Boolean):
split on every single space character and drop the empty pieces. -/
def splitWords (s : Str) : List Str :=
  (s.splitOn ' ').filter (fun w => !w.isEmpty)

/-- Poll loop of pollMessage, run over the successive message states its
iterations observe; it stops at the first terminal state, and an empty
trace cuts off a loop that has not yet observed a terminal state. -/
def pollMessageTrace : List Message → Nat → List StreamChunk
  | [], _ => []
  | m :: rest, lastWordCount =>
    let words := splitWords m.content
    let fresh := (words.drop lastWordCount).map
      (fun w => StreamChunk.mk m.id Status.streaming w)
    if m.status = Status.done then
      fresh ++ [StreamChunk.mk m.id Status.done []]
    else if m.status = Status.error then
      fresh ++ [StreamChunk.mk m.id Status.error []]
    else
      fresh ++ pollMessageTrace rest words.length

/-- Index view of the same poll loop: the for loop of one iteration
emits exactly the chunk indices from lastWordCount up to the current
word count, and lastWordCount is then set to that word count. -/
def pollMessageTraceIdx : List Message → Nat → List Nat
  | [], _ => []
  | m :: rest, lastWordCount =>
    let n := (splitWords m.content).length
    let fresh := List.range' lastWordCount (n - lastWordCount)
    if m.status = Status.done then fresh
    else if m.status = Status.error then fresh
    else fresh ++ pollMessageTraceIdx rest n

/-- Starting word count computed by resumeMessage from the content the
client reports, input.content.split(space).filter(Boolean).length. -/
def startWordCount (content : Str) : Nat :=
  ((content.splitOn ' ').filter (fun w => !w.isEmpty)).length

/-- Router mutation resumeMessage: find the message by id, throw when it
is absent, otherwise poll it; the found state is the first state the
poll loop observes and later holds the states later polls observe. -/
def resumeMessage (store : List Message) (input : Message) (later : List Message) :
    Except Unit (List StreamChunk) :=
  match store.find? (fun m => m.id == input.id) with
  | none => Except.error ()
  | some m => Except.ok (pollMessageTrace (m :: later) (startWordCount input.content))

/-- Assistant message placeholder created by sendMessage. -/
def mkAssistantMessage (id : Str) (now : Nat) : Message :=
  { id := id, content := [], role := Role.assistant, createdAt := now,
    status := Status.streaming }

/-- Router mutation sendMessage: append the user message and a fresh
assistant placeholder to the store, tee the completion stream, run the
fire and forget persister on one branch and the relay on the other.
The abortAfter argument cuts the relay output after that many chunks,
modelling a client that aborts the call there, while the detached
persister still drains its whole branch; none means the client consumes
everything. Returns the new store, the final state of the assistant
record the persister mutates, and the chunks the client received. -/
def sendMessageRun (store : List Message) (input : Message) (src : ChunkSource)
    (assistantId : Str) (now : Nat) (abortAfter : Option Nat) :
    List Message × Message × List StreamChunk :=
  let assistant := mkAssistantMessage assistantId now
  let newStore := store ++ [input, assistant]
  let branches := tee src
  let persisted := consumeStream branches.1 assistant
  let relayFull := (convertReadableStreamToAsyncIterable branches.2 assistantId).1
  let relayOut :=
    match abortAfter with
    | none => relayFull
    | some k => relayFull.take k
  (newStore, persisted, relayOut)

/-- Id generation, with the random base36 substring drawn from
Math.random abstracted as the draw the call receives; a nonempty pfx is
joined to the draw with a dash and an absent or empty pfx is dropped,
following JavaScript truthiness. -/
def generateId (draw : Str) (pfx : Option Str) : Str :=
  match pfx with
  | some p => if p = [] then draw else p ++ '-' :: draw
  | none => draw

/-- Prefix string sendMessage passes to generateId. -/
def assistantPfx : Str := "assistant".toList

/-- Assistant ids produced across successive sendMessage calls, one
random draw per call. -/
def assistantIds (draws : List Str) : List Str :=
  draws.map (fun d => generateId d (some assistantPfx))

/-- Content the persister accumulates from the empty placeholder content. -/
def joinWords (chunks : List Str) : Str := chunks.foldl appendWord []

/-- A well formed chunk: a nonempty word containing no space character,
exactly what splitting a single spaced response produces. -/
def WfChunk (w : Str) : Prop := w ≠ [] ∧ ' ' ∉ w

instance (w : Str) : Decidable (WfChunk w) :=
  inferInstanceAs (Decidable (w ≠ [] ∧ ' ' ∉ w))

/-- Word count of a message content under the poll splitting rule. -/
def wordCount (m : Message) : Nat := (splitWords m.content).length

/-- Counting rule following the words of the spec glossary: the number
of whitespace delimited words of a string, splitting on every
whitespace character and dropping empty pieces. -/
def whitespaceWordCount (s : Str) : Nat :=
  ((s.splitOnP (fun ch => ch.isWhitespace)).filter (fun w => !w.isEmpty)).length

/-- Folding appendWord from a nonempty accumulator prepends one space to
every later word. -/
theorem foldl_appendWord (cs : List Str) (acc : Str) (h : acc ≠ []) :
    cs.foldl appendWord acc = acc ++ (cs.map (fun w => ' ' :: w)).flatten := by
  induction cs generalizing acc with
  | nil => simp
  | cons d ds ih =>
    have hstep : appendWord acc d = acc ++ [' '] ++ d := by
      simp [appendWord, h]
    have hne : appendWord acc d ≠ [] := by
      simp [hstep]
    rw [List.foldl_cons, ih _ hne, hstep]
    simp [List.append_assoc]

/-- Splitting a space free word followed by space prefixed space free
words recovers the word list. -/
theorem splitOn_word_flatten (cs : List Str) (c : Str)
    (hc : ' ' ∉ c) (hcs : ∀ w ∈ cs, ' ' ∉ w) :
    (c ++ (cs.map (fun w => ' ' :: w)).flatten).splitOn ' ' = c :: cs := by
  induction cs generalizing c with
  | nil =>
    simp only [List.map_nil, List.flatten_nil, List.append_nil, List.splitOn]
    refine List.splitOnP_eq_single _ _ ?_
    intro x hx
    simp only [beq_iff_eq]
    intro hx'
    exact hc (hx' ▸ hx)
  | cons d ds ih =>
    have h1 : c ++ ((d :: ds).map (fun w => ' ' :: w)).flatten
        = c ++ ' ' :: (d ++ (ds.map (fun w => ' ' :: w)).flatten) := by
      simp
    rw [h1]
    simp only [List.splitOn]
    rw [List.splitOnP_first (fun x => x == ' ') c (fun x hx => by
          simp only [beq_iff_eq]
          intro hx'
          exact hc (hx' ▸ hx)) ' ' (beq_self_eq_true ' ')]
    have h2 := ih d (hcs d (by simp)) (fun w hw => hcs w (by simp [hw]))
    simp only [List.splitOn] at h2
    rw [h2]

/-- Round trip of persistence and splitting: splitting the persisted
content of well formed chunks returns exactly those chunks. -/
theorem splitWords_joinWords (chunks : List Str) (hwf : ∀ w ∈ chunks, WfChunk w) :
    splitWords (joinWords chunks) = chunks := by
  cases chunks with
  | nil => rfl
  | cons c cs =>
    have hc : WfChunk c := hwf c (by simp)
    have h0 : appendWord [] c = c := by
      simp [appendWord]
    have h1 : joinWords (c :: cs) = c ++ (cs.map (fun w => ' ' :: w)).flatten := by
      rw [joinWords, List.foldl_cons, h0, foldl_appendWord cs c hc.1]
    rw [splitWords, h1,
      splitOn_word_flatten cs c hc.2 (fun w hw => (hwf w (by simp [hw])).2)]
    rw [List.filter_eq_self.mpr]
    intro a ha
    have hane : a ≠ [] := by
      rcases List.mem_cons.mp ha with h | h
      · exact h ▸ hc.1
      · exact (hwf a (by simp [h])).1
    simp [hane]

/-- The starting count resumeMessage computes on persisted well formed
chunks is the number of those chunks. -/
theorem startWordCount_joinWords (chunks : List Str)
    (hwf : ∀ w ∈ chunks, WfChunk w) :
    startWordCount (joinWords chunks) = chunks.length := by
  show (splitWords (joinWords chunks)).length = chunks.length
  rw [splitWords_joinWords chunks hwf]

/-- A relay branch that closes normally yields one streaming chunk per
word and then the terminal done chunk. -/
theorem convertGo_closed (chunks : List Str) (aid : Str) :
    convertGo aid chunks false =
      (chunks.map (fun w => StreamChunk.mk aid Status.streaming w)
        ++ [StreamChunk.mk aid Status.done []], StreamEnd.closed) := by
  induction chunks with
  | nil => rfl
  | cons w ws ih => simp [convertGo, ih]

/-- A relay branch that fails yields the words delivered before the
failure and then rethrows; no terminal chunk is emitted. -/
theorem convertGo_fails (chunks : List Str) (aid : Str) :
    convertGo aid chunks true =
      (chunks.map (fun w => StreamChunk.mk aid Status.streaming w), StreamEnd.thrown) := by
  induction chunks with
  | nil => rfl
  | cons w ws ih => simp [convertGo, ih]

/-- C1: aborting the client facing call after any number of chunks
leaves the background persisted assistant message with the same
eventual terminal status and the same final content as the run in which
the client consumes everything, and that status is terminal. -/
theorem abort_does_not_affect_persister (store : List Message) (input : Message)
    (src : ChunkSource) (aid : Str) (now k : Nat) :
    (sendMessageRun store input src aid now (some k)).2.1.status =
      (sendMessageRun store input src aid now none).2.1.status ∧
    (sendMessageRun store input src aid now (some k)).2.1.content =
      (sendMessageRun store input src aid now none).2.1.content ∧
    ((sendMessageRun store input src aid now none).2.1.status = Status.done ∨
      (sendMessageRun store input src aid now none).2.1.status = Status.error) := by
  refine ⟨rfl, rfl, ?_⟩
  by_cases hf : src.fails
  · right
    simp [sendMessageRun, tee, consumeStream, hf]
  · left
    simp [sendMessageRun, tee, consumeStream, hf]

/-- C4: on its tee branch the live relay re-emits every chunk, in
order, as a streaming chunk tagged with the target message id, and on
branch exhaustion emits exactly one terminal done chunk with empty text
and nothing further. -/
theorem relay_reemits_chunks_then_done (chunks : List Str) (aid : Str) :
    convertReadableStreamToAsyncIterable (ChunkSource.mk chunks false) aid =
      (chunks.map (fun w => StreamChunk.mk aid Status.streaming w)
        ++ [StreamChunk.mk aid Status.done []], StreamEnd.closed) :=
  convertGo_closed chunks aid

/-- C6: resumeMessage fails with the not found error exactly when no
stored message has the requested id, and then yields no stream chunks. -/
theorem resume_notfound_iff (store : List Message) (input : Message)
    (later : List Message) :
    resumeMessage store input later = Except.error () ↔
      ∀ m ∈ store, m.id ≠ input.id := by
  cases h : store.find? (fun m => m.id == input.id) with
  | none =>
    have hrun : resumeMessage store input later = Except.error () := by
      unfold resumeMessage
      rw [h]
    simp only [List.find?_eq_none, beq_iff_eq] at h
    exact iff_of_true hrun h
  | some m =>
    have hrun : resumeMessage store input later ≠ Except.error () := by
      unfold resumeMessage
      rw [h]
      intro hc
      exact Except.noConfusion hc
    have h1 : m.id = input.id := by
      simpa using List.find?_some h
    have h2 : m ∈ store := List.mem_of_find?_eq_some h
    exact iff_of_false hrun (fun hall => hall m h2 h1)

/-- C10: appending well formed chunks, nonempty and space free, to an
empty content with the persister separator rule and then splitting with
the poller rule returns exactly the original chunks, so resume chunk
counting agrees with the number of persisted chunks. -/
theorem persist_split_roundtrip (chunks : List Str)
    (hwf : ∀ w ∈ chunks, WfChunk w) :
    splitWords (joinWords chunks) = chunks ∧
    startWordCount (joinWords chunks) = chunks.length :=
  ⟨splitWords_joinWords chunks hwf, startWordCount_joinWords chunks hwf⟩

/-- Witness for the round trip at a concrete two chunk list. -/
theorem persist_split_roundtrip_witness :
    splitWords (joinWords [['h', 'i'], ['y', 'o', 'u']]) = [['h', 'i'], ['y', 'o', 'u']] ∧
    startWordCount (joinWords [['h', 'i'], ['y', 'o', 'u']]) = 2 :=
  persist_split_roundtrip [['h', 'i'], ['y', 'o', 'u']] (by decide)

/-- C3: the persister appends every chunk in source order under the
single separator rule, records done on completion and error on branch
failure, and the persisted content splits back into exactly the source
chunk sequence. -/
theorem persister_content_matches_source (src : ChunkSource) (aid : Str) (now : Nat)
    (hwf : ∀ w ∈ src.chunks, WfChunk w) :
    (consumeStream src (mkAssistantMessage aid now)).content = joinWords src.chunks ∧
    splitWords (consumeStream src (mkAssistantMessage aid now)).content = src.chunks ∧
    (consumeStream src (mkAssistantMessage aid now)).status =
      (if src.fails then Status.error else Status.done) := by
  have hc : (consumeStream src (mkAssistantMessage aid now)).content
      = joinWords src.chunks := by
    by_cases hf : src.fails <;>
      simp [consumeStream, mkAssistantMessage, joinWords, hf]
  refine ⟨hc, ?_, ?_⟩
  · rw [hc]
    exact splitWords_joinWords src.chunks hwf
  · by_cases hf : src.fails <;> simp [consumeStream, hf]

/-- Witness for the persister at a concrete two chunk source. -/
theorem persister_content_matches_source_witness :
    (consumeStream (ChunkSource.mk [['a'], ['b']] false)
      (mkAssistantMessage ['m'] 0)).content = joinWords [['a'], ['b']] ∧
    splitWords (consumeStream (ChunkSource.mk [['a'], ['b']] false)
      (mkAssistantMessage ['m'] 0)).content = [['a'], ['b']] ∧
    (consumeStream (ChunkSource.mk [['a'], ['b']] false)
      (mkAssistantMessage ['m'] 0)).status =
      (if (ChunkSource.mk [['a'], ['b']] false).fails
        then Status.error else Status.done) :=
  persister_content_matches_source (ChunkSource.mk [['a'], ['b']] false) ['m'] 0
    (by decide)

/-- C2: for a finished message holding N persisted well formed chunks,
resuming with a client content equal to the first k chunks yields
exactly the remaining chunks, in order, as streaming chunks tagged with
the message id, followed by exactly one terminal chunk whose status
matches the final status of the message. -/
theorem resume_completeness (chunks : List Str) (k : Nat) (aid : Str)
    (st : Status) (now now2 : Nat) (later : List Message)
    (hwf : ∀ w ∈ chunks, WfChunk w) (hk : k ≤ chunks.length)
    (hst : st = Status.done ∨ st = Status.error) :
    resumeMessage
      [Message.mk aid (joinWords chunks) Role.assistant now st]
      (Message.mk aid (joinWords (chunks.take k)) Role.assistant now2 Status.streaming)
      later =
    Except.ok ((chunks.drop k).map (fun w => StreamChunk.mk aid Status.streaming w)
      ++ [StreamChunk.mk aid st []]) := by
  have hcount : startWordCount (joinWords (chunks.take k)) = k := by
    have hwf' : ∀ w ∈ chunks.take k, WfChunk w :=
      fun w hw => hwf w (List.take_subset k chunks hw)
    rw [startWordCount_joinWords (chunks.take k) hwf']
    simp only [List.length_take]
    omega
  have hsplit : splitWords (joinWords chunks) = chunks :=
    splitWords_joinWords chunks hwf
  unfold resumeMessage
  simp only [List.find?, beq_self_eq_true]
  rcases hst with h | h <;> subst h <;>
    simp [pollMessageTrace, hsplit, hcount]

/-- Witness for resume completeness at three chunks with one already at
the client. -/
theorem resume_completeness_witness :
    resumeMessage
      [Message.mk ['m'] (joinWords [['a'], ['b'], ['c']]) Role.assistant 0 Status.done]
      (Message.mk ['m'] (joinWords ([['a'], ['b'], ['c']].take 1)) Role.assistant 0
        Status.streaming)
      [] =
    Except.ok (([['a'], ['b'], ['c']].drop 1).map
        (fun w => StreamChunk.mk ['m'] Status.streaming w)
      ++ [StreamChunk.mk ['m'] Status.done []]) :=
  resume_completeness [['a'], ['b'], ['c']] 1 ['m'] Status.done 0 0 []
    (by decide) (by decide) (Or.inl rfl)

/-- C5 counterexample: when the chunk source fails after one chunk, the
live relay generator ends with a thrown fault and emits no chunk with
status error, contradicting the claim that a mid stream failure is
surfaced to an active live relay as a terminal error chunk and never as
a thrown fault. -/
theorem relay_failure_thrown_counterexample :
    (convertReadableStreamToAsyncIterable (ChunkSource.mk [['a']] true) ['m']).2
      = StreamEnd.thrown ∧
    ∀ ch ∈ (convertReadableStreamToAsyncIterable (ChunkSource.mk [['a']] true) ['m']).1,
      ch.status ≠ Status.error := by
  decide

/-- C5 amended: a mid stream failure is recorded as message status
error and surfaced to an active resume poller as a terminal error chunk
on a normally ending stream; an active live relay, however, surfaces
the failure as a fault thrown out of its generator and emits streaming
chunks only, with no terminal chunk. -/
theorem generation_failure_surfaced (src : ChunkSource) (aid : Str) (now c : Nat)
    (hf : src.fails = true) :
    (consumeStream src (mkAssistantMessage aid now)).status = Status.error ∧
    pollMessageTrace [consumeStream src (mkAssistantMessage aid now)] c =
      ((splitWords (consumeStream src (mkAssistantMessage aid now)).content).drop c).map
        (fun w => StreamChunk.mk aid Status.streaming w)
      ++ [StreamChunk.mk aid Status.error []] ∧
    (convertReadableStreamToAsyncIterable src aid).2 = StreamEnd.thrown ∧
    ∀ ch ∈ (convertReadableStreamToAsyncIterable src aid).1,
      ch.status = Status.streaming := by
  have hm : (consumeStream src (mkAssistantMessage aid now)).status = Status.error := by
    simp [consumeStream, hf]
  have hid : (consumeStream src (mkAssistantMessage aid now)).id = aid := by
    by_cases h : src.fails <;> simp [consumeStream, mkAssistantMessage, h]
  refine ⟨hm, ?_, ?_, ?_⟩
  · simp [pollMessageTrace, hm, hid]
  · simp [convertReadableStreamToAsyncIterable, hf, convertGo_fails]
  · simp only [convertReadableStreamToAsyncIterable, hf, convertGo_fails]
    intro ch hch
    rcases List.mem_map.mp hch with ⟨w, _, hw⟩
    exact hw ▸ rfl

/-- Witness for the amended failure claim at a one chunk failing source. -/
theorem generation_failure_surfaced_witness :
    (consumeStream (ChunkSource.mk [['a']] true)
      (mkAssistantMessage ['m'] 0)).status = Status.error ∧
    pollMessageTrace [consumeStream (ChunkSource.mk [['a']] true)
        (mkAssistantMessage ['m'] 0)] 0 =
      ((splitWords (consumeStream (ChunkSource.mk [['a']] true)
        (mkAssistantMessage ['m'] 0)).content).drop 0).map
        (fun w => StreamChunk.mk ['m'] Status.streaming w)
      ++ [StreamChunk.mk ['m'] Status.error []] ∧
    (convertReadableStreamToAsyncIterable (ChunkSource.mk [['a']] true) ['m']).2
      = StreamEnd.thrown ∧
    ∀ ch ∈ (convertReadableStreamToAsyncIterable (ChunkSource.mk [['a']] true) ['m']).1,
      ch.status = Status.streaming :=
  generation_failure_surfaced (ChunkSource.mk [['a']] true) ['m'] 0 0 rfl

/-- Every index the poll loop emits is at least the count it starts
from, provided the observed word counts never go below that count and
never decrease. -/
theorem pollIdx_ge (snaps : List Message) (c : Nat)
    (hge : ∀ m ∈ snaps, c ≤ wordCount m)
    (hmono : (snaps.map wordCount).Pairwise (· ≤ ·)) :
    ∀ i ∈ pollMessageTraceIdx snaps c, c ≤ i := by
  induction snaps generalizing c with
  | nil =>
    intro i hi
    simp [pollMessageTraceIdx] at hi
  | cons m rest ih =>
    intro i hi
    have hpc : (∀ a ∈ rest, wordCount m ≤ wordCount a) ∧
        (rest.map wordCount).Pairwise (· ≤ ·) := by
      simpa using hmono
    have hcm : c ≤ wordCount m := hge m (by simp)
    simp only [pollMessageTraceIdx] at hi
    split_ifs at hi
    · exact (List.mem_range'_1.mp hi).1
    · exact (List.mem_range'_1.mp hi).1
    · rcases List.mem_append.mp hi with h | h
      · exact (List.mem_range'_1.mp h).1
      · exact le_trans hcm (ih (wordCount m) hpc.1 hpc.2 i h)

/-- When the observed word counts never decrease, the poll loop never
emits the same index twice. -/
theorem pollIdx_nodup (snaps : List Message) (c : Nat)
    (hmono : (snaps.map wordCount).Pairwise (· ≤ ·)) :
    (pollMessageTraceIdx snaps c).Nodup := by
  induction snaps generalizing c with
  | nil => simp [pollMessageTraceIdx]
  | cons m rest ih =>
    have hpc : (∀ a ∈ rest, wordCount m ≤ wordCount a) ∧
        (rest.map wordCount).Pairwise (· ≤ ·) := by
      simpa using hmono
    simp only [pollMessageTraceIdx]
    split_ifs
    · exact List.nodup_range' _ _
    · exact List.nodup_range' _ _
    · refine List.Nodup.append (List.nodup_range' _ _) (ih _ hpc.2) ?_
      intro a ha hb
      have h3 := List.mem_range'_1.mp ha
      have h4 : wordCount m ≤ a :=
        pollIdx_ge rest (wordCount m) hpc.1 hpc.2 a hb
      have h5 : wordCount m = (splitWords m.content).length := rfl
      omega

/-- The poll loop emits exactly one streaming chunk per emitted index. -/
theorem pollIdx_length (snaps : List Message) (c : Nat) :
    (pollMessageTraceIdx snaps c).length =
      (pollMessageTrace snaps c).countP (fun ch => ch.status == Status.streaming) := by
  induction snaps generalizing c with
  | nil => simp [pollMessageTraceIdx, pollMessageTrace]
  | cons m rest ih =>
    have hfresh :
        (((splitWords m.content).drop c).map
          (fun w => StreamChunk.mk m.id Status.streaming w)).countP
          (fun ch => ch.status == Status.streaming)
        = (splitWords m.content).length - c := by
      rw [List.countP_map]
      simp [Function.comp_def]
    simp only [pollMessageTraceIdx, pollMessageTrace]
    split_ifs
    · rw [List.countP_append, hfresh]
      simp [List.countP_cons]
    · rw [List.countP_append, hfresh]
      simp [List.countP_cons]
    · rw [List.length_append, List.countP_append, hfresh, ih]
      simp

/-- C7 counterexample: in a resume call observing a content evolution
that shrinks from two words to one and grows back, the poll loop emits
chunk index 1 twice, so at most once delivery fails when quantified
over arbitrary evolutions of the server side content. -/
theorem poll_reemits_index_counterexample :
    pollMessageTraceIdx
      [Message.mk ['m'] ['a', ' ', 'b'] Role.assistant 0 Status.streaming,
       Message.mk ['m'] ['a'] Role.assistant 0 Status.streaming,
       Message.mk ['m'] ['a', ' ', 'b'] Role.assistant 0 Status.done] 0 = [0, 1, 1] ∧
    ¬ (pollMessageTraceIdx
      [Message.mk ['m'] ['a', ' ', 'b'] Role.assistant 0 Status.streaming,
       Message.mk ['m'] ['a'] Role.assistant 0 Status.streaming,
       Message.mk ['m'] ['a', ' ', 'b'] Role.assistant 0 Status.done] 0).Nodup := by
  decide

/-- C7 amended: within a single resume call whose observed word counts
never decrease, as holds for the append only persister, no chunk index
is emitted twice, and the emitted indices count exactly the streaming
chunks of the poll trace. -/
theorem poll_at_most_once (snaps : List Message) (c : Nat)
    (hmono : (snaps.map wordCount).Pairwise (· ≤ ·)) :
    (pollMessageTraceIdx snaps c).Nodup ∧
    (pollMessageTraceIdx snaps c).length =
      (pollMessageTrace snaps c).countP (fun ch => ch.status == Status.streaming) :=
  ⟨pollIdx_nodup snaps c hmono, pollIdx_length snaps c⟩

/-- Witness for at most once delivery on a growing two poll trace. -/
theorem poll_at_most_once_witness :
    (pollMessageTraceIdx
      [Message.mk ['m'] ['a'] Role.assistant 0 Status.streaming,
       Message.mk ['m'] ['a', ' ', 'b'] Role.assistant 0 Status.done] 0).Nodup ∧
    (pollMessageTraceIdx
      [Message.mk ['m'] ['a'] Role.assistant 0 Status.streaming,
       Message.mk ['m'] ['a', ' ', 'b'] Role.assistant 0 Status.done] 0).length =
      (pollMessageTrace
        [Message.mk ['m'] ['a'] Role.assistant 0 Status.streaming,
         Message.mk ['m'] ['a', ' ', 'b'] Role.assistant 0 Status.done] 0).countP
        (fun ch => ch.status == Status.streaming) :=
  poll_at_most_once
    [Message.mk ['m'] ['a'] Role.assistant 0 Status.streaming,
     Message.mk ['m'] ['a', ' ', 'b'] Role.assistant 0 Status.done] 0 (by decide)

/-- C8 counterexample: on a reported content of letter a, tab, letter b
the code counts one word while the whitespace delimited count is two,
so the counting rule splits on spaces only, not on all whitespace. -/
theorem resume_count_not_whitespace_counterexample :
    startWordCount ['a', '\t', 'b'] = 1 ∧
    whitespaceWordCount ['a', '\t', 'b'] = 2 ∧
    startWordCount ['a', '\t', 'b'] ≠ whitespaceWordCount ['a', '\t', 'b'] := by
  decide

/-- C8 amended: resumeMessage computes the starting chunk count by the
same single space delimited rule the poller and persister round trip
use, splitting on the space character and dropping empty pieces, and on
persisted well formed chunks that count equals the number of chunks. -/
theorem resume_count_same_rule (s : Str) (chunks : List Str)
    (hwf : ∀ w ∈ chunks, WfChunk w) :
    startWordCount s = (splitWords s).length ∧
    startWordCount (joinWords chunks) = chunks.length :=
  ⟨rfl, startWordCount_joinWords chunks hwf⟩

/-- Witness for the counting rule on a concrete content and chunk list. -/
theorem resume_count_same_rule_witness :
    startWordCount ['a', ' ', 'b'] = (splitWords ['a', ' ', 'b']).length ∧
    startWordCount (joinWords [['a'], ['b']]) = 2 :=
  resume_count_same_rule ['a', ' ', 'b'] [['a'], ['b']] (by decide)

/-- C9 counterexample: two sendMessage calls whose random draws
coincide produce the same assistant id, so two distinct calls of the
generator alone do not guarantee distinct ids. -/
theorem generated_ids_collision_counterexample :
    ¬ (assistantIds [['x'], ['x']]).Nodup := by
  decide

/-- The id generator with the assistant prefix is injective in the
random draw. -/
theorem generateId_injective :
    Function.Injective (fun d => generateId d (some assistantPfx)) := by
  intro d₁ d₂ hEq
  have hp : ¬ assistantPfx = [] := by decide
  simp only [generateId, if_neg hp] at hEq
  have h2 := List.append_cancel_left hEq
  simpa using h2

/-- C9 amended: the id generator is injective in its random draw, so
the assistant ids of calls with pairwise distinct draws are pairwise
distinct and the store gains no duplicate generated id. -/
theorem generated_ids_nodup (draws : List Str) (h : draws.Nodup) :
    (assistantIds draws).Nodup :=
  List.Nodup.map generateId_injective h

/-- Witness for id distinctness at two distinct draws. -/
theorem generated_ids_nodup_witness : (assistantIds [['x'], ['y']]).Nodup :=
  generated_ids_nodup [['x'], ['y']] (by decide)

end ResumableStreaming
